import Mathlib

/-!
Verification of the mcp-advisor documentation server core
(`src/index.ts`): the TTL cache, version resolution, section-based URL
filtering, and document composition.  Definitions are shallow embeddings
of the TypeScript source; strings are modelled by Lean `String`, the
injected remote-fetch collaborator by explicit function parameters, and
JavaScript `any` values produced by `response.json()` by a small `Json`
type together with JavaScript truthiness.
-/

set_option maxRecDepth 10000
set_option linter.unusedVariables false

namespace McpAdvisor

/-! ## List-of-character string primitives

`startsWithL pat s` is true when `pat` is an initial run of `s`;
`containsL pat s` mirrors JavaScript `s.includes(pat)`. -/

def startsWithL : List Char → List Char → Bool
  | [], _ => true
  | _ :: _, [] => false
  | p :: ps, c :: cs => p == c && startsWithL ps cs

def containsL (pat : List Char) : List Char → Bool
  | [] => startsWithL pat []
  | c :: cs => startsWithL pat (c :: cs) || containsL pat cs

/-- JavaScript `s.includes(pat)`. -/
def containsSub (pat s : String) : Bool :=
  containsL pat.data s.data

/-- JavaScript `Array.prototype.join(sep)`. -/
def joinSep (sep : String) : List String → String
  | [] => ""
  | [x] => x
  | x :: y :: xs => x ++ sep ++ joinSep sep (y :: xs)

/-- Replace the first occurrence of `pat` (JavaScript `String.prototype.replace`
with a plain-string pattern); returns the input when `pat` does not occur. -/
def replaceFirstL (pat repl : List Char) : List Char → List Char
  | [] => if startsWithL pat [] then repl else []
  | c :: cs =>
    if startsWithL pat (c :: cs) then repl ++ (c :: cs).drop pat.length
    else c :: replaceFirstL pat repl cs

def replaceFirst (s pat repl : String) : String :=
  String.mk (replaceFirstL pat.data repl.data s.data)

/-- First index `≥ start` at which `pat` occurs in `s`
(JavaScript `s.indexOf(pat, start)`), or `none`. -/
def indexOfFromL (pat : List Char) (s : List Char) (start : Nat) : Option Nat :=
  go (s.drop start) start
where
  go : List Char → Nat → Option Nat
    | [], i => if startsWithL pat [] then some i else none
    | c :: cs, i =>
      if startsWithL pat (c :: cs) then some i else go cs (i + 1)

/-- JavaScript `String.prototype.split` with a one-character separator:
splitting never yields the empty list (splitting the empty string gives
`[""]`). -/
def splitOnCharL (sep : Char) : List Char → List (List Char)
  | [] => [[]]
  | c :: cs =>
    if c == sep then [] :: splitOnCharL sep cs
    else
      match splitOnCharL sep cs with
      | [] => [[c]]
      | g :: gs => (c :: g) :: gs

/-- JavaScript `s.endsWith(pat)`. -/
def endsWithL (pat s : List Char) : Bool :=
  startsWithL pat.reverse s.reverse

/-- JavaScript whitespace for `trim`. -/
def isWsp (c : Char) : Bool :=
  c == ' ' || c == '\t' || c == '\n' || c == '\r'

/-- JavaScript `s.trim()`. -/
def trimL (s : List Char) : List Char :=
  ((s.dropWhile isWsp).reverse.dropWhile isWsp).reverse

/-- JavaScript `url.split('/').pop() || ''`. -/
def lastSegment (url : String) : String :=
  String.mk ((splitOnCharL '/' url.data).getLastD [])

/-! ## The generic TTL cache (`class Cache`) -/

/-- `CacheEntry<T>` from the source: stored datum plus write timestamp
(milliseconds). -/
structure CEntry (α : Type) where
  data : α
  timestamp : Nat
deriving Repr, DecidableEq

/-- The cache's backing `Map<string, CacheEntry<any>>`, as an association
list in which the most recent write for a key comes first. -/
def CacheMap (α : Type) : Type := List (String × CEntry α)

/-- `private static TTL = 3600000` (one hour in milliseconds). -/
def TTL : Nat := 3600000

namespace Cache

def lookupEntry {α : Type} : CacheMap α → String → Option (CEntry α)
  | [], _ => none
  | (k, e) :: rest, key => if k == key then some e else lookupEntry rest key

/-- `Cache.get`: the stored datum, provided the entry exists and
`now - entry.timestamp < TTL`. -/
def get {α : Type} (m : CacheMap α) (key : String) (now : Nat) : Option α :=
  match lookupEntry m key with
  | some e => if now - e.timestamp < TTL then some e.data else none
  | none => none

/-- `Cache.set`: unconditionally store the datum with the current
timestamp, shadowing any prior entry. -/
def set {α : Type} (m : CacheMap α) (key : String) (v : α) (now : Nat) : CacheMap α :=
  (key, ⟨v, now⟩) :: m

/-- `Cache.getExpired`: the stored datum regardless of age. -/
def getExpired {α : Type} (m : CacheMap α) (key : String) : Option α :=
  (lookupEntry m key).map (fun e => e.data)

end Cache

/-- A write operation against the cache, for reasoning about which keys
were ever written over a whole run. -/
inductive CacheOp (α : Type) where
  | set (key : String) (v : α) (t : Nat)

def CacheOp.key {α : Type} : CacheOp α → String
  | .set k _ _ => k

/-- Replay a chronological list of cache writes onto the empty cache. -/
def runOps {α : Type} (ops : List (CacheOp α)) : CacheMap α :=
  ops.foldl (fun m op => match op with | .set k v t => Cache.set m k v t) ([] : CacheMap α)

/-! ## JSON values

`response.json()` produces an arbitrary JavaScript value; the source
stores it in the cache as `any` and tests it with `if (cached)` /
`if (expired)`, i.e. JavaScript truthiness. -/

inductive Json where
  | null
  | bool (b : Bool)
  | num (n : Int)
  | str (s : String)
  | arr (xs : List Json)
  | obj (fields : List (String × Json))

/-- JavaScript truthiness of a JSON value (`null`, `false`, `0` and the
empty string are falsy; arrays and objects are always truthy). -/
def Json.truthy : Json → Bool
  | .null => false
  | .bool b => b
  | .num n => n != 0
  | .str s => s != ""
  | .arr _ => true
  | .obj _ => true

/-- Truthiness of a `T | null` JavaScript value (`null` is falsy). -/
def truthyOpt : Option Json → Bool
  | none => false
  | some v => v.truthy

/-- Escape one character for a JSON string literal. -/
def jsonEscapeChar (c : Char) : String :=
  if c == '"' then "\\\""
  else if c == '\\' then "\\\\"
  else if c == '\n' then "\\n"
  else if c == '\t' then "\\t"
  else if c == '\r' then "\\r"
  else String.mk [c]

def jsonEscape (s : String) : String :=
  String.join (s.data.map jsonEscapeChar)

mutual

/-- `JSON.stringify(v, null, 2)`: pretty-print with two-space
indentation, `indent` being the current indentation width. -/
def jsonStringify (indent : Nat) : Json → String
  | .null => "null"
  | .bool b => if b then "true" else "false"
  | .num n => toString n
  | .str s => "\"" ++ jsonEscape s ++ "\""
  | .arr [] => "[]"
  | .arr (x :: xs) =>
    "[\n" ++ joinSep ",\n" (jsonStringifyArr (indent + 2) (x :: xs)) ++
      "\n" ++ String.mk (List.replicate indent ' ') ++ "]"
  | .obj [] => "\x7b\x7d"
  | .obj (f :: fs) =>
    "\x7b\n" ++ joinSep ",\n" (jsonStringifyObj (indent + 2) (f :: fs)) ++
      "\n" ++ String.mk (List.replicate indent ' ') ++ "\x7d"

def jsonStringifyArr (indent : Nat) : List Json → List String
  | [] => []
  | x :: xs =>
    (String.mk (List.replicate indent ' ') ++ jsonStringify indent x) ::
      jsonStringifyArr indent xs

def jsonStringifyObj (indent : Nat) : List (String × Json) → List String
  | [] => []
  | (k, v) :: fs =>
    (String.mk (List.replicate indent ' ') ++ "\"" ++ jsonEscape k ++ "\": " ++
        jsonStringify indent v) ::
      jsonStringifyObj indent fs

end

/-! ## Versions (`VERSION`, `SUPPORTED_VERSIONS`) -/

/-- Default version used when no specific version is requested. -/
def VERSION : String := "2025-03-26"

/-- List of supported versions. -/
def SUPPORTED_VERSIONS : List String := ["draft", "2024-11-05", "2025-03-26"]

/-! ## Section filtering (`filterUrlsBySection`) -/

/-- One position of the regex `\/20\d{2}-\d{2}-\d{2}\/`: a dated version
path segment starting at the head of the character list. -/
def datedSegmentAt : List Char → Bool
  | '/' :: '2' :: '0' :: d1 :: d2 :: '-' :: d3 :: d4 :: '-' :: d5 :: d6 :: '/' :: _ =>
    d1.isDigit && d2.isDigit && d3.isDigit && d4.isDigit && d5.isDigit && d6.isDigit
  | _ => false

def hasVersionSegmentL : List Char → Bool
  | [] => false
  | c :: cs =>
    datedSegmentAt (c :: cs) || startsWithL "/draft/".data (c :: cs) ||
      hasVersionSegmentL cs

/-- JavaScript `url.match(/\/20\d{2}-\d{2}-\d{2}\/|\/draft\//)` viewed as
a Boolean: the locator embeds a recognizable version segment (a dated
segment or the draft marker). -/
def hasVersionSegment (url : String) : Bool :=
  hasVersionSegmentL url.data

/-- The version-scoping filter applied by `filterUrlsBySection` before
any section rule: drop empty entries and the literal `MCP` sentinel, and
keep a locator only if it contains `/version/` or matches no version
regex at all. -/
def validLinksFilter (links : List String) (version : String) : List String :=
  links.filter (fun url =>
    url != "" && url != "MCP" &&
      (containsSub ("/" ++ version ++ "/") url || !hasVersionSegment url))

/-- `filterUrlsBySection(links, section, version = VERSION)`.

`regexTest pat seg` stands for JavaScript `new RegExp(pat).test(seg)`,
the injected regular-expression engine used by the `section.startsWith('^')`
branch; it is a parameter of the embedding because the source hands the
pattern to the host regex engine. -/
def filterUrlsBySection (regexTest : String → String → Bool)
    (links : List String) (sect : String) (version : String := VERSION) : List String :=
  let validLinks := validLinksFilter links version
  if startsWithL "^".data sect.data then
    validLinks.filter (fun url => regexTest sect (lastSegment url))
  else if sect == "github.com/modelcontextprotocol/" then
    validLinks.filter (fun url =>
      startsWithL "https://github.com/modelcontextprotocol/".data url.data)
  else if sect == "/docs/" then
    validLinks.filter (fun url =>
      let parts := splitOnCharL '/' url.data
      parts.length == 4 && endsWithL ".md".data (parts.getD 3 []))
  else
    validLinks.filter (fun url => containsSub sect url)

/-! ## The injected remote-fetch collaborator and error values -/

/-- Outcome of a remote fetch whose body is consumed as text
(`response.text()`): success, a non-ok HTTP status, or a thrown
transport error. -/
inductive TFetch where
  | ok (body : String)
  | httpError (status : Nat)
  | transportError (msg : String)

/-- Outcome of a remote fetch whose body is consumed as JSON
(`response.json()`); a body that fails to parse surfaces as a thrown
error, i.e. `transportError`. -/
inductive JFetch where
  | ok (body : Json)
  | httpError (status : Nat)
  | transportError (msg : String)

/-- An `McpError`: error code plus message. -/
structure McpErr where
  code : String
  message : String
deriving Repr, DecidableEq

/-! ## Schema fetching (`getSchema`, `getSchemaForVersion`) -/

def getSchemaUrlForVersion (version : String) : String :=
  "https://raw.githubusercontent.com/modelcontextprotocol/specification/refs/heads/main/schema/"
    ++ version ++ "/schema.json"

def SCHEMA_URL : String :=
  "https://raw.githubusercontent.com/modelcontextprotocol/specification/refs/heads/main/schema/"
    ++ VERSION ++ "/schema.json"

/-- The catch block of `getSchema`: try the expired cache, else raise an
`InternalError`. -/
def getSchemaFallback (st : CacheMap Json) (errorMessage : String) :
    Except McpErr (Json × CacheMap Json) :=
  let expired := Cache.getExpired st SCHEMA_URL
  if truthyOpt expired then .ok (expired.getD Json.null, st)
  else .error ⟨"InternalError", "Failed to fetch schema: " ++ errorMessage⟩

/-- `getSchema()`: cached schema if truthy and fresh, else fetch
`SCHEMA_URL`, caching the result; on failure fall back to the expired
cache or raise an `InternalError`. -/
def getSchema (fetchJson : String → JFetch) (st : CacheMap Json) (now : Nat) :
    Except McpErr (Json × CacheMap Json) :=
  let cached := Cache.get st SCHEMA_URL now
  if truthyOpt cached then .ok (cached.getD Json.null, st)
  else
    match fetchJson SCHEMA_URL with
    | .ok schema => .ok (schema, Cache.set st SCHEMA_URL schema now)
    | .httpError s => getSchemaFallback st ("HTTP error! Status: " ++ toString s)
    | .transportError m => getSchemaFallback st m

/-- The catch block of `getSchemaForVersion`. -/
def schemaForVersionFallback (st : CacheMap Json) (version errorMessage : String) :
    Except McpErr (Json × CacheMap Json) :=
  let expired := Cache.getExpired st (getSchemaUrlForVersion version)
  if truthyOpt expired then .ok (expired.getD Json.null, st)
  else .error ⟨"InternalError",
    "Failed to fetch schema for version " ++ version ++ ": " ++ errorMessage⟩

/-- `getSchemaForVersion(version)`: same logic as `getSchema` against
the version-specific schema URL.  The version is used as given; no
validation is performed. -/
def getSchemaForVersion (fetchJson : String → JFetch) (st : CacheMap Json) (now : Nat)
    (version : String) : Except McpErr (Json × CacheMap Json) :=
  let schemaUrl := getSchemaUrlForVersion version
  let cached := Cache.get st schemaUrl now
  if truthyOpt cached then .ok (cached.getD Json.null, st)
  else
    match fetchJson schemaUrl with
    | .ok schema => .ok (schema, Cache.set st schemaUrl schema now)
    | .httpError s => schemaForVersionFallback st version ("HTTP error! Status: " ++ toString s)
    | .transportError m => schemaForVersionFallback st version m

/-! ## Links list (`fetchLinksList`) -/

/-- All matches of the global regex `\(([^)]+)\)` over the fetched text,
each sliced to the capture group: parenthesized runs of one or more
non-`)` characters, scanned left to right. -/
def extractLinksGo : Nat → List Char → List String
  | 0, _ => []
  | _ + 1, [] => []
  | fuel + 1, c :: cs =>
    if c == '(' then
      let inner := cs.takeWhile (fun ch => ch != ')')
      if inner.isEmpty || (cs.drop inner.length).isEmpty then extractLinksGo fuel cs
      else String.mk inner :: extractLinksGo fuel ((cs.drop inner.length).tail)
    else extractLinksGo fuel cs

/-- Entry point of the scan; the fuel bounds the number of scanning
steps, each of which consumes at least one character. -/
def extractLinksL (s : List Char) : List String :=
  extractLinksGo s.length s

/-- `fetchLinksList()`: cached list if fresh, else fetch
`https://modelcontextprotocol.io/llms.txt`, parse the parenthesized
links and cache them under the key `llms.txt`; on failure raise an
`InternalError` (no stale-cache fallback on this path). -/
def fetchLinksList (fetchText : String → TFetch) (st : CacheMap (List String)) (now : Nat) :
    Except McpErr (List String × CacheMap (List String)) :=
  match Cache.get st "llms.txt" now with
  | some cached => .ok (cached, st)
  | none =>
    match fetchText "https://modelcontextprotocol.io/llms.txt" with
    | .ok text =>
      let links := extractLinksL text.data
      .ok (links, Cache.set st "llms.txt" links now)
    | .httpError s =>
      .error ⟨"InternalError", "Failed to fetch links list: HTTP error! Status: " ++ toString s⟩
    | .transportError m =>
      .error ⟨"InternalError", "Failed to fetch links list: " ++ m⟩

/-! ## Markdown fetching (`fetchMarkdownContent`) -/

/-- Strip a leading `---`-delimited front-matter block, if present:
when the text starts with `---` and a second `---` occurs at index ≥ 3,
keep the text after it, trimmed. -/
def stripFrontMatter (markdown : String) : String :=
  if startsWithL "---".data markdown.data then
    match indexOfFromL "---".data markdown.data 3 with
    | some secondDash => String.mk (trimL (markdown.data.drop (secondDash + 3)))
    | none => markdown
  else markdown

/-- Successful-fetch post-processing: strip front matter and append the
source-URL provenance footer. -/
def mdProcess (url body : String) : String :=
  stripFrontMatter body ++ "\n\n---\n*Source: [" ++ url ++ "](" ++ url ++ ")*\n"

/-- The inline error placeholder substituted for a failing fragment. -/
def mdPlaceholder (url errorMessage : String) : String :=
  "**Error:** Failed to load content from " ++ url ++ ": " ++ errorMessage

/-- `fetchMarkdownContent(url)`: cached content if truthy and fresh,
else fetch, post-process and cache; on failure return the inline error
placeholder (never an exception, never a stale-cache read). -/
def fetchMarkdownContent (fetchText : String → TFetch) (st : CacheMap String) (now : Nat)
    (url : String) : String × CacheMap String :=
  let cached := (Cache.get st url now).getD ""
  if cached != "" then (cached, st)
  else
    match fetchText url with
    | .ok body =>
      let markdown := mdProcess url body
      (markdown, Cache.set st url markdown now)
    | .httpError s => (mdPlaceholder url ("HTTP error! Status: " ++ toString s), st)
    | .transportError m => (mdPlaceholder url m, st)

/-! ## Version extraction (`extractVersionFromUri`) -/

/-- First match of the regex `\/specification\/([^/]+)\//` in the URI,
returning the capture group: the path segment following
`/specification/`, provided it is non-empty and closed by a further
slash. -/
def matchSpecVersionL : List Char → Option (List Char)
  | [] => none
  | c :: cs =>
    if startsWithL "/specification/".data (c :: cs) then
      let after := (c :: cs).drop 15
      let seg := after.takeWhile (fun ch => ch != '/')
      if seg.isEmpty || (after.drop seg.length).isEmpty then matchSpecVersionL cs
      else some seg
    else matchSpecVersionL cs

/-- `extractVersionFromUri(uri)`: the version segment of the URI when it
is present and supported, else the default `VERSION` (soft fallback —
an unsupported version degrades to the default, no error is raised). -/
def extractVersionFromUri (uri : String) : String :=
  match matchSpecVersionL uri.data with
  | some seg =>
    if SUPPORTED_VERSIONS.contains (String.mk seg) then String.mk seg else VERSION
  | none => VERSION

/-! ## Section composition in the `ReadResource` handler

The handler maps each locator to an async task rendering its fetched
content (with a divider for every fragment after the first); the tasks
settle in some completion order, and `Promise.all` re-assembles the
values positionally. -/

/-- The divider rule of the handler's per-index task: pages after the
first are prefixed with a heading derived from the locator's final path
segment (`.md` stripped, `_index` humanized to `Overview`). -/
def renderFragment (content : String) (index : Nat) (url : String) : String :=
  if index > 0 then
    let fileName := lastSegment url
    let sectionName := replaceFirst (replaceFirst fileName ".md" "") "_index" "Overview"
    "\n\n## " ++ sectionName ++ "\n\n" ++ content
  else content

/-- The value each task settles with: the fetched markdown (cache read
against the shared pre-fan-out state) rendered with the divider rule. -/
def handlerTasks (fetchText : String → TFetch) (st : CacheMap String) (now : Nat)
    (urls : List String) : List String :=
  urls.mapIdx (fun index url =>
    renderFragment (fetchMarkdownContent fetchText st now url).1 index url)

/-- The settlement log of the fan-out: tasks complete in the order given
by `order`, each recording its original index alongside its value. -/
def settleLog (tasks : List String) (order : List Nat) : List (Nat × String) :=
  order.map (fun i => (i, tasks.getD i ""))

/-- `Promise.all`: the settled values re-assembled by original index. -/
def promiseAllGather (n : Nat) (log : List (Nat × String)) : List String :=
  (List.range n).map (fun i => (log.lookup i).getD "")

/-- The handler's combined markdown for one resource, with the
concurrent fetches settling in completion order `order`. -/
def composeHandlerDoc (fetchText : String → TFetch) (st : CacheMap String) (now : Nat)
    (urls : List String) (order : List Nat) : String :=
  joinSep "\n\n" (promiseAllGather urls.length (settleLog (handlerTasks fetchText st now urls) order))

/-! ## Complete composition (`getCompleteResourceDoc`,
`getCombinedCompleteResourceDoc`) -/

structure ContentItem where
  uri : String
  text : String
  mimeType : String
deriving Repr, DecidableEq

/-- The fixed order of logical sections. -/
def completeSections : List String :=
  ["architecture", "basic", "basic/utilities", "client", "server", "server/utilities"]

/-- The `/specification/VERSION/` links that complete composition draws
from, with `schema.json` excluded (it is handled separately). -/
def specLinksOf (links : List String) : List String :=
  links.filter (fun url =>
    containsSub ("/specification/" ++ VERSION ++ "/") url && !containsSub "schema.json" url)

/-- `sectionTitle.charAt(0).toUpperCase() + sectionTitle.slice(1)`. -/
def capitalizeFirst (s : String) : String :=
  match s.data with
  | [] => ""
  | c :: cs => String.mk (c.toUpper :: cs)

/-- `section.split('/').pop() || section`. -/
def sectionTitleOf (sec : String) : String :=
  let t := String.mk ((splitOnCharL '/' sec.data).getLastD [])
  if t == "" then sec else t

/-- One section's concurrent fragment fetch: every value is computed
against the shared state at fan-out; the cache writes land by fan-in. -/
def sectionFetch (fetchText : String → TFetch) (now : Nat) (st : CacheMap String)
    (urls : List String) : List String × CacheMap String :=
  (urls.map (fun u => (fetchMarkdownContent fetchText st now u).1),
   urls.foldl (fun m u => (fetchMarkdownContent fetchText m now u).2) st)

/-- The section loop of `getCombinedCompleteResourceDoc`: filter the
spec links for each logical section, skip empty sections, fetch the
fragments and append a `##` heading block per non-empty section. -/
def combinedBodyAux (fetchText : String → TFetch) (rt : String → String → Bool) (now : Nat) :
    List String → List String → String → CacheMap String → String × CacheMap String
  | [], _, acc, st => (acc, st)
  | sec :: rest, specLinks, acc, st =>
    let sectionLinks := filterUrlsBySection rt specLinks ("/" ++ sec ++ "/") VERSION
    if sectionLinks.isEmpty then combinedBodyAux fetchText rt now rest specLinks acc st
    else
      let fetched := sectionFetch fetchText now st sectionLinks
      combinedBodyAux fetchText rt now rest specLinks
        (acc ++ "\n\n## " ++ capitalizeFirst (sectionTitleOf sec) ++ "\n\n" ++
          joinSep "\n\n" fetched.1)
        fetched.2

/-- `getCombinedCompleteResourceDoc()`: one flat markdown document —
the fixed heading followed by the non-empty section blocks.  It takes
the schema-fetch collaborator only to exhibit that it never consults
it. -/
def getCombinedCompleteResourceDoc (fetchJson : String → JFetch)
    (fetchText : String → TFetch) (rt : String → String → Bool)
    (textC : CacheMap String) (linksC : CacheMap (List String)) (now : Nat) :
    Except McpErr (String × CacheMap String × CacheMap (List String)) :=
  match fetchLinksList fetchText linksC now with
  | .error e =>
    .error ⟨"InternalError", "Could not generate complete specification: " ++ e.message⟩
  | .ok (allLinks, linksC') =>
    let specLinks := specLinksOf allLinks
    let body := combinedBodyAux fetchText rt now completeSections specLinks "" textC
    .ok ("# Model Context Protocol Documentation\n\n" ++ body.1, body.2, linksC')

/-- The section loop of `getCompleteResourceDoc`: one `text/markdown`
content item per non-empty logical section. -/
def sectionsItemsAux (fetchText : String → TFetch) (rt : String → String → Bool) (now : Nat)
    (baseUri : String) :
    List String → List String → CacheMap String → List ContentItem × CacheMap String
  | [], _, st => ([], st)
  | sec :: rest, specLinks, st =>
    let sectionLinks := filterUrlsBySection rt specLinks ("/" ++ sec ++ "/") VERSION
    if sectionLinks.isEmpty then sectionsItemsAux fetchText rt now baseUri rest specLinks st
    else
      let fetched := sectionFetch fetchText now st sectionLinks
      let sectionDoc := "# " ++ capitalizeFirst (sectionTitleOf sec) ++ "\n\n" ++
        joinSep "\n\n" fetched.1
      let tail := sectionsItemsAux fetchText rt now baseUri rest specLinks fetched.2
      (⟨baseUri ++ "#" ++ sec, sectionDoc, "text/markdown"⟩ :: tail.1, tail.2)

/-- `getCompleteResourceDoc(baseUri)`: the strictly-fetched schema as
the first content item, then one item per non-empty logical section. -/
def getCompleteResourceDoc (fetchJson : String → JFetch) (fetchText : String → TFetch)
    (rt : String → String → Bool) (jsonC : CacheMap Json) (textC : CacheMap String)
    (linksC : CacheMap (List String)) (now : Nat) (baseUri : String) :
    Except McpErr (List ContentItem × CacheMap Json × CacheMap String × CacheMap (List String)) :=
  match getSchema fetchJson jsonC now with
  | .error e =>
    .error ⟨"InternalError", "Could not generate complete specification: " ++ e.message⟩
  | .ok (schema, jsonC') =>
    match fetchLinksList fetchText linksC now with
    | .error e =>
      .error ⟨"InternalError", "Could not generate complete specification: " ++ e.message⟩
    | .ok (allLinks, linksC') =>
      let specLinks := specLinksOf allLinks
      let schemaItem : ContentItem :=
        ⟨baseUri ++ "#schema", jsonStringify 0 schema, "application/json"⟩
      let items := sectionsItemsAux fetchText rt now baseUri completeSections specLinks textC
      .ok (schemaItem :: items.1, jsonC', items.2, linksC')

/-- The locators complete composition hands to `fetchMarkdownContent`,
in order: the concatenation of each logical section's filtered links. -/
def combinedFetchPlan (rt : String → String → Bool) (specLinks : List String) : List String :=
  (completeSections.map (fun sec =>
    filterUrlsBySection rt specLinks ("/" ++ sec ++ "/") VERSION)).flatten

/-! ## Helper lemmas -/

lemma startsWithL_append_self (p t : List Char) : startsWithL p (p ++ t) = true := by
  induction p with
  | nil => rfl
  | cons c cs ih => simp [startsWithL, ih]

lemma startsWithL_of_append (a b s : List Char) (h : startsWithL (a ++ b) s = true) :
    startsWithL a s = true := by
  induction a generalizing s with
  | nil => rfl
  | cons c cs ih =>
    cases s with
    | nil => simp [startsWithL] at h
    | cons d ds =>
      simp only [List.cons_append, startsWithL, Bool.and_eq_true] at h ⊢
      exact ⟨h.1, ih ds h.2⟩

lemma containsL_of_startsWithL (p s : List Char) (h : startsWithL p s = true) :
    containsL p s = true := by
  cases s <;> simp [containsL, h]

lemma containsL_cons (p : List Char) (c : Char) (s : List Char) (h : containsL p s = true) :
    containsL p (c :: s) = true := by
  simp [containsL, h]

lemma containsL_append_left (p t s : List Char) (h : containsL p s = true) :
    containsL p (t ++ s) = true := by
  induction t with
  | nil => exact h
  | cons c cs ih => exact containsL_cons p c (cs ++ s) ih

lemma containsL_pat_append (a b s : List Char) (h : containsL (a ++ b) s = true) :
    containsL a s = true := by
  induction s with
  | nil =>
    simp only [containsL] at h ⊢
    exact startsWithL_of_append a b [] h
  | cons c cs ih =>
    simp only [containsL, Bool.or_eq_true] at h ⊢
    cases h with
    | inl h => exact Or.inl (startsWithL_of_append a b (c :: cs) h)
    | inr h => exact Or.inr (ih h)

lemma containsSub_self_append (c t : String) : containsSub c (c ++ t) = true := by
  unfold containsSub
  rw [String.data_append]
  exact containsL_of_startsWithL _ _ (startsWithL_append_self c.data t.data)

/-- Every element of a list is a substring of the separator-joined list. -/
lemma containsSub_joinSep (sep c : String) (l : List String) (h : c ∈ l) :
    containsSub c (joinSep sep l) = true := by
  induction l with
  | nil => cases h
  | cons x xs ih =>
    cases xs with
    | nil =>
      have hx : c = x := List.mem_singleton.mp h
      subst hx
      have : joinSep sep [c] = c ++ "" := by simp [joinSep]
      rw [this]
      exact containsSub_self_append c ""
    | cons y ys =>
      cases List.mem_cons.mp h with
      | inl heq =>
        subst heq
        show containsSub c (c ++ sep ++ joinSep sep (y :: ys)) = true
        rw [String.append_assoc]
        exact containsSub_self_append c (sep ++ joinSep sep (y :: ys))
      | inr h2 =>
        have hr := ih h2
        show containsSub c (x ++ sep ++ joinSep sep (y :: ys)) = true
        unfold containsSub at hr ⊢
        rw [String.data_append, String.data_append]
        rw [List.append_assoc]
        exact containsL_append_left _ _ _ (containsL_append_left _ _ _ hr)

/-- Filtering twice by the same pair of predicates is the same as
filtering once. -/
lemma filter_pair_idem (p q : α → Bool) (l : List α) :
    (((l.filter q).filter p).filter q).filter p = (l.filter q).filter p := by
  have hq : ((l.filter q).filter p).filter q = (l.filter q).filter p := by
    apply List.filter_eq_self.mpr
    intro a ha
    exact (List.mem_filter.mp (List.mem_filter.mp ha).1).2
  rw [hq]
  apply List.filter_eq_self.mpr
  intro a ha
  exact (List.mem_filter.mp ha).2

/-- Replaying cache writes: a key is absent from the final map iff it is
absent initially and no write targets it. -/
lemma getExpired_foldl_none {α : Type} (ops : List (CacheOp α)) (m : CacheMap α) (k : String) :
    Cache.getExpired
        (ops.foldl (fun m op => match op with | .set k v t => Cache.set m k v t) m) k = none ↔
      (Cache.getExpired m k = none ∧ ∀ op ∈ ops, CacheOp.key op ≠ k) := by
  induction ops generalizing m with
  | nil => simp
  | cons op rest ih =>
    cases op with
    | set k1 v t =>
      rw [List.foldl_cons, ih]
      constructor
      · rintro ⟨h1, h2⟩
        have hk : (k1 == k) = false := by
          by_contra hc
          have : k1 == k := by
            cases hbe : k1 == k with
            | true => rfl
            | false => exact absurd hbe hc
          simp [Cache.getExpired, Cache.set, Cache.lookupEntry, this] at h1
        have hne : k1 ≠ k := by
          intro he
          subst he
          simp at hk
        refine ⟨?_, ?_⟩
        · simpa [Cache.getExpired, Cache.set, Cache.lookupEntry, hk] using h1
        · intro o ho
          cases List.mem_cons.mp ho with
          | inl he => subst he; exact hne
          | inr hm => exact h2 o hm
      · rintro ⟨h1, h2⟩
        have hne : k1 ≠ k := h2 (.set k1 v t) (List.mem_cons_self _ _)
        have hk : (k1 == k) = false := by
          cases hbe : k1 == k with
          | true => exact absurd (by simpa using hbe) hne
          | false => rfl
        refine ⟨?_, ?_⟩
        · simpa [Cache.getExpired, Cache.set, Cache.lookupEntry, hk] using h1
        · intro o ho
          exact h2 o (List.mem_cons_of_mem _ ho)

/-! ## C1: cache retrieval contract -/

/-- C1.  Cache retrieval contract: `set(k, v)` immediately followed by
`get(k)` returns `v`; once the TTL (3600 seconds) has elapsed since the
last `set` of `k`, `get(k)` reports absent while `getStale(k)`
(`getExpired` in the source) still returns the last-written value; over
any run of writes from the empty cache, `getStale(k)` reports absent
exactly when `k` was never written. -/
theorem c1_cache_retrieval_contract :
    (∀ (α : Type) (m : CacheMap α) (k : String) (v : α) (t : Nat),
      Cache.get (Cache.set m k v t) k t = some v) ∧
    (∀ (α : Type) (m : CacheMap α) (k : String) (v : α) (t now : Nat),
      t + TTL ≤ now →
      Cache.get (Cache.set m k v t) k now = none ∧
      Cache.getExpired (Cache.set m k v t) k = some v) ∧
    (∀ (α : Type) (ops : List (CacheOp α)) (k : String),
      Cache.getExpired (runOps ops) k = none ↔ ∀ op ∈ ops, CacheOp.key op ≠ k) := by
  refine ⟨?_, ?_, ?_⟩
  · intro α m k v t
    simp [Cache.get, Cache.set, Cache.lookupEntry, TTL]
  · intro α m k v t now h
    constructor
    · simp only [Cache.get, Cache.set, Cache.lookupEntry, beq_self_eq_true, if_true]
      rw [if_neg]
      omega
    · simp [Cache.getExpired, Cache.set, Cache.lookupEntry]
  · intro α ops k
    unfold runOps
    rw [getExpired_foldl_none]
    simp [Cache.getExpired, Cache.lookupEntry]

/-- Witness for C1 at a concrete instance. -/
theorem c1_cache_retrieval_contract_witness :
    0 + TTL ≤ TTL ∧
    (Cache.get (Cache.set ([] : CacheMap Nat) "k" 7 0) "k" TTL = none ∧
      Cache.getExpired (Cache.set ([] : CacheMap Nat) "k" 7 0) "k" = some 7) :=
  ⟨by decide, c1_cache_retrieval_contract.2.1 Nat [] "k" 7 0 TTL (by decide)⟩

/-! ## C2: version scoping in the section filter -/

/-- C2.  Version scoping: the scoping step (applied before any section
rule) retains a locator only if it embeds no recognizable version
segment at all or it contains the requested version's segment; on the
locators `["/2024-11-05/basic/x", "/2025-03-26/basic/x", "/basic/y"]`
with requested version `2025-03-26` it drops exactly the `2024-11-05`
locator. -/
theorem c2_version_scoping :
    (∀ (links : List String) (version url : String),
      url ∈ validLinksFilter links version →
      hasVersionSegment url = false ∨ containsSub ("/" ++ version ++ "/") url = true) ∧
    (∀ (rt : String → String → Bool) (links : List String) (sect version url : String),
      url ∈ filterUrlsBySection rt links sect version → url ∈ validLinksFilter links version) ∧
    validLinksFilter ["/2024-11-05/basic/x", "/2025-03-26/basic/x", "/basic/y"] "2025-03-26"
      = ["/2025-03-26/basic/x", "/basic/y"] := by
  refine ⟨?_, ?_, by decide⟩
  · intro links version url h
    have := (List.mem_filter.mp h).2
    simp only [Bool.and_eq_true, Bool.or_eq_true, Bool.not_eq_true'] at this
    rcases this.2 with h1 | h1
    · exact Or.inr h1
    · exact Or.inl h1
  · intro rt links sect version url h
    unfold filterUrlsBySection at h
    split at h
    · exact (List.mem_filter.mp h).1
    · split at h
      · exact (List.mem_filter.mp h).1
      · split at h
        · exact (List.mem_filter.mp h).1
        · exact (List.mem_filter.mp h).1

/-- Witness for C2 at a concrete instance. -/
theorem c2_version_scoping_witness :
    ("/basic/y" ∈ validLinksFilter ["/2024-11-05/basic/x", "/2025-03-26/basic/x", "/basic/y"]
        "2025-03-26") ∧
    (hasVersionSegment "/basic/y" = false ∨
      containsSub ("/" ++ "2025-03-26" ++ "/") "/basic/y" = true) :=
  ⟨by decide,
    c2_version_scoping.1 ["/2024-11-05/basic/x", "/2025-03-26/basic/x", "/basic/y"]
      "2025-03-26" "/basic/y" (by decide)⟩

/-! ## C8: idempotence of the section filter -/

/-- C8.  `filterUrlsBySection` is idempotent: filtering an
already-filtered result with the same section spec and version returns
the same list. -/
theorem c8_filter_idempotent (rt : String → String → Bool) (links : List String)
    (sect version : String) :
    filterUrlsBySection rt (filterUrlsBySection rt links sect version) sect version
      = filterUrlsBySection rt links sect version := by
  unfold filterUrlsBySection validLinksFilter
  split
  · exact filter_pair_idem _ _ links
  · split
    · exact filter_pair_idem _ _ links
    · split
      · exact filter_pair_idem _ _ links
      · exact filter_pair_idem _ _ links

/-! ## C3: version validation at the schema-fetch entry points -/

lemma schemaForVersionFallback_error_code (st : CacheMap Json) (version msg : String)
    (e : McpErr) (h : schemaForVersionFallback st version msg = .error e) :
    e.code = "InternalError" := by
  unfold schemaForVersionFallback at h
  dsimp only at h
  split at h
  · exact absurd h (by simp)
  · rw [Except.error.injEq] at h
    rw [← h]

/-- C3.  The code performs no strict version validation:
`extractVersionFromUri` silently falls back to the default `VERSION`
for the unsupported version `2023-01-01` (instead of failing), accepts
a supported version unchanged, and every error `getSchemaForVersion`
can produce is an `InternalError`, never an
`InvalidParams`/`UnsupportedVersion` error enumerating the supported
versions. -/
theorem c3_no_strict_version_validation :
    extractVersionFromUri
        "https://modelcontextprotocol.io/specification/2023-01-01/index.md" = VERSION ∧
    extractVersionFromUri
        "https://modelcontextprotocol.io/specification/2025-03-26/index.md" = "2025-03-26" ∧
    (∀ (fetchJson : String → JFetch) (st : CacheMap Json) (now : Nat) (version : String)
        (e : McpErr),
      getSchemaForVersion fetchJson st now version = .error e → e.code = "InternalError") := by
  refine ⟨by rfl, by rfl, ?_⟩
  intro fetchJson st now version e h
  unfold getSchemaForVersion at h
  dsimp only at h
  split at h
  · exact absurd h (by simp)
  · split at h
    · exact absurd h (by simp)
    · exact schemaForVersionFallback_error_code _ _ _ _ h
    · exact schemaForVersionFallback_error_code _ _ _ _ h

/-- Witness for C3 at a concrete instance. -/
theorem c3_no_strict_version_validation_witness :
    getSchemaForVersion (fun _ => JFetch.httpError 500) [] 0 "2023-01-01"
      = .error ⟨"InternalError",
          "Failed to fetch schema for version 2023-01-01: HTTP error! Status: 500"⟩ ∧
    McpErr.code ⟨"InternalError",
        "Failed to fetch schema for version 2023-01-01: HTTP error! Status: 500"⟩
      = "InternalError" :=
  ⟨by rfl,
    c3_no_strict_version_validation.2.2 (fun _ => JFetch.httpError 500) [] 0 "2023-01-01"
      ⟨"InternalError",
        "Failed to fetch schema for version 2023-01-01: HTTP error! Status: 500"⟩ (by rfl)⟩

/-! ## C4: per-fragment error isolation -/

/-- C4.  Per-fragment error isolation: on a cache miss, a fragment
whose fetch fails (non-ok status or transport error) yields the inline
error placeholder naming its locator and the failure, a successful
fragment yields its processed content, every fragment's resulting
content appears in the composed section output, and composition errors
can only originate in the links-list fetch — never in a fragment
failure. -/
theorem c4_fragment_error_isolation :
    (∀ (fetchText : String → TFetch) (st : CacheMap String) (now : Nat) (url : String)
        (s : Nat),
      (Cache.get st url now).getD "" = "" →
      fetchText url = .httpError s →
      (fetchMarkdownContent fetchText st now url).1
        = mdPlaceholder url ("HTTP error! Status: " ++ toString s)) ∧
    (∀ fetchText st now url m,
      (Cache.get st url now).getD "" = "" →
      fetchText url = .transportError m →
      (fetchMarkdownContent fetchText st now url).1 = mdPlaceholder url m) ∧
    (∀ fetchText st now url b,
      (Cache.get st url now).getD "" = "" →
      fetchText url = .ok b →
      (fetchMarkdownContent fetchText st now url).1 = mdProcess url b) ∧
    (∀ fetchText (st : CacheMap String) now (urls : List String) url,
      url ∈ urls →
      containsSub (fetchMarkdownContent fetchText st now url).1
        (joinSep "\n\n" (sectionFetch fetchText now st urls).1) = true) ∧
    (∀ fetchJson fetchText rt (textC : CacheMap String) (linksC : CacheMap (List String))
        now e,
      getCombinedCompleteResourceDoc fetchJson fetchText rt textC linksC now = .error e →
      ∃ e2, fetchLinksList fetchText linksC now = .error e2) := by
  refine ⟨?_, ?_, ?_, ?_, ?_⟩
  · intro fetchText st now url s h1 h2
    simp [fetchMarkdownContent, h1, h2]
  · intro fetchText st now url m h1 h2
    simp [fetchMarkdownContent, h1, h2]
  · intro fetchText st now url b h1 h2
    simp [fetchMarkdownContent, h1, h2]
  · intro fetchText st now urls url h
    apply containsSub_joinSep
    exact List.mem_map_of_mem _ h
  · intro fetchJson fetchText rt textC linksC now e h
    unfold getCombinedCompleteResourceDoc at h
    cases hl : fetchLinksList fetchText linksC now with
    | error e2 => exact ⟨e2, rfl⟩
    | ok p =>
      obtain ⟨links, lc⟩ := p
      rw [hl] at h
      exact absurd h (by simp)

/-- Witness for C4 at a concrete instance. -/
theorem c4_fragment_error_isolation_witness :
    ((Cache.get ([] : CacheMap String) "https://a/x.md" 0).getD "" = "" ∧
      (fun _ : String => TFetch.httpError 404) "https://a/x.md" = .httpError 404) ∧
    (fetchMarkdownContent (fun _ => TFetch.httpError 404) [] 0 "https://a/x.md").1
      = mdPlaceholder "https://a/x.md" ("HTTP error! Status: " ++ toString 404) :=
  ⟨⟨by rfl, by rfl⟩,
    c4_fragment_error_isolation.1 (fun _ => TFetch.httpError 404) [] 0 "https://a/x.md" 404
      (by rfl) (by rfl)⟩

/-! ## C5: schema fetch stale fallback -/

/-- C5 counterexample: a previously cached but falsy JSON value (here a
top-level `null` schema) is NOT returned as stale fallback — the fetch
failure raises the fatal error even though a value was cached under the
schema's key. -/
theorem c5_falsy_stale_counterexample :
    Cache.getExpired ([(getSchemaUrlForVersion VERSION, ⟨Json.null, 0⟩)] : CacheMap Json)
        (getSchemaUrlForVersion VERSION) = some Json.null ∧
    getSchemaForVersion (fun _ => JFetch.httpError 500)
        [(getSchemaUrlForVersion VERSION, ⟨Json.null, 0⟩)] TTL VERSION
      = .error ⟨"InternalError",
          "Failed to fetch schema for version " ++ VERSION ++ ": HTTP error! Status: 500"⟩ :=
  ⟨by rfl, by rfl⟩

/-- `getSchema` returns the expired cached value when the entry's TTL
has elapsed, the fetch fails (non-ok status or transport error), and
the cached value is truthy. -/
lemma getSchema_stale_ok (fetchJson : String → JFetch) (m : CacheMap Json) (now : Nat)
    (v : Json) (t s : Nat) (msg : String) (hv : v.truthy = true) (ht : t + TTL ≤ now)
    (hf : fetchJson SCHEMA_URL = .httpError s ∨ fetchJson SCHEMA_URL = .transportError msg) :
    getSchema fetchJson (Cache.set m SCHEMA_URL v t) now
      = .ok (v, Cache.set m SCHEMA_URL v t) := by
  have hget : Cache.get (Cache.set m SCHEMA_URL v t) SCHEMA_URL now = none := by
    simp only [Cache.get, Cache.set, Cache.lookupEntry, beq_self_eq_true, if_true]
    rw [if_neg]
    omega
  have hexp : Cache.getExpired (Cache.set m SCHEMA_URL v t) SCHEMA_URL = some v := by
    simp [Cache.getExpired, Cache.set, Cache.lookupEntry]
  cases hf with
  | inl hf => simp [getSchema, hget, hf, getSchemaFallback, hexp, truthyOpt, hv]
  | inr hf => simp [getSchema, hget, hf, getSchemaFallback, hexp, truthyOpt, hv]

/-- C5 (amended).  When a schema fetch fails (non-ok response or
transport error): with nothing ever cached under the schema's key the
operation raises the fatal `InternalError`; with a previously cached
truthy value — even one whose TTL has expired — that stale value is
returned instead, and complete composition succeeds. -/
theorem c5_schema_stale_fallback :
    (∀ (fetchJson : String → JFetch) (st : CacheMap Json) (now : Nat) (version : String)
        (s : Nat),
      Cache.getExpired st (getSchemaUrlForVersion version) = none →
      fetchJson (getSchemaUrlForVersion version) = .httpError s →
      getSchemaForVersion fetchJson st now version
        = .error ⟨"InternalError", "Failed to fetch schema for version " ++ version ++ ": "
            ++ ("HTTP error! Status: " ++ toString s)⟩) ∧
    (∀ (fetchJson : String → JFetch) (st : CacheMap Json) (now : Nat)
        (version msg : String),
      Cache.getExpired st (getSchemaUrlForVersion version) = none →
      fetchJson (getSchemaUrlForVersion version) = .transportError msg →
      getSchemaForVersion fetchJson st now version
        = .error ⟨"InternalError",
            "Failed to fetch schema for version " ++ version ++ ": " ++ msg⟩) ∧
    (∀ (fetchJson : String → JFetch) (m : CacheMap Json) (now : Nat) (version : String)
        (v : Json) (t s : Nat) (msg : String),
      v.truthy = true →
      t + TTL ≤ now →
      (fetchJson (getSchemaUrlForVersion version) = .httpError s ∨
        fetchJson (getSchemaUrlForVersion version) = .transportError msg) →
      getSchemaForVersion fetchJson (Cache.set m (getSchemaUrlForVersion version) v t)
          now version
        = .ok (v, Cache.set m (getSchemaUrlForVersion version) v t)) ∧
    (∀ (fetchJson : String → JFetch) (fetchText : String → TFetch)
        (rt : String → String → Bool) (m : CacheMap Json) (textC : CacheMap String)
        (linksC : CacheMap (List String)) (now : Nat) (v : Json) (t s : Nat)
        (msg baseUri : String) (links : List String) (lc' : CacheMap (List String)),
      v.truthy = true →
      t + TTL ≤ now →
      (fetchJson SCHEMA_URL = .httpError s ∨ fetchJson SCHEMA_URL = .transportError msg) →
      fetchLinksList fetchText linksC now = .ok (links, lc') →
      (getCompleteResourceDoc fetchJson fetchText rt (Cache.set m SCHEMA_URL v t)
          textC linksC now baseUri).isOk = true) := by
  have hnone : ∀ (st : CacheMap Json) (version : String) (now : Nat),
      Cache.getExpired st (getSchemaUrlForVersion version) = none →
      Cache.get st (getSchemaUrlForVersion version) now = none := by
    intro st version now h1
    have hl : Cache.lookupEntry st (getSchemaUrlForVersion version) = none := by
      unfold Cache.getExpired at h1
      cases hE : Cache.lookupEntry st (getSchemaUrlForVersion version) with
      | none => rfl
      | some e => rw [hE] at h1; exact absurd h1 (by simp)
    simp [Cache.get, hl]
  refine ⟨?_, ?_, ?_, ?_⟩
  · intro fetchJson st now version s h1 h2
    simp [getSchemaForVersion, hnone st version now h1, h2, schemaForVersionFallback, h1,
      truthyOpt]
  · intro fetchJson st now version msg h1 h2
    simp [getSchemaForVersion, hnone st version now h1, h2, schemaForVersionFallback, h1,
      truthyOpt]
  · intro fetchJson m now version v t s msg hv ht hf
    have hget : Cache.get (Cache.set m (getSchemaUrlForVersion version) v t)
        (getSchemaUrlForVersion version) now = none := by
      simp only [Cache.get, Cache.set, Cache.lookupEntry, beq_self_eq_true, if_true]
      rw [if_neg]
      omega
    have hexp : Cache.getExpired (Cache.set m (getSchemaUrlForVersion version) v t)
        (getSchemaUrlForVersion version) = some v := by
      simp [Cache.getExpired, Cache.set, Cache.lookupEntry]
    cases hf with
    | inl hf =>
      simp [getSchemaForVersion, hget, hf, schemaForVersionFallback, hexp, truthyOpt, hv]
    | inr hf =>
      simp [getSchemaForVersion, hget, hf, schemaForVersionFallback, hexp, truthyOpt, hv]
  · intro fetchJson fetchText rt m textC linksC now v t s msg baseUri links lc' hv ht hf
      hlinks
    unfold getCompleteResourceDoc
    rw [getSchema_stale_ok fetchJson m now v t s msg hv ht hf, hlinks]
    rfl

/-- Witness for C5 at a concrete instance (a transport failure with a
truthy expired cached schema). -/
theorem c5_schema_stale_fallback_witness :
    ((Json.obj []).truthy = true ∧ 0 + TTL ≤ TTL ∧
      ((fun _ : String => JFetch.transportError "socket hang up")
          (getSchemaUrlForVersion "2025-03-26") = .httpError 500 ∨
        (fun _ : String => JFetch.transportError "socket hang up")
          (getSchemaUrlForVersion "2025-03-26") = .transportError "socket hang up")) ∧
    getSchemaForVersion (fun _ => JFetch.transportError "socket hang up")
        (Cache.set [] (getSchemaUrlForVersion "2025-03-26") (Json.obj []) 0) TTL "2025-03-26"
      = .ok (Json.obj [], Cache.set [] (getSchemaUrlForVersion "2025-03-26") (Json.obj []) 0) :=
  ⟨⟨by rfl, by decide, Or.inr (by rfl)⟩,
    c5_schema_stale_fallback.2.2.1 (fun _ => JFetch.transportError "socket hang up") [] TTL
      "2025-03-26" (Json.obj []) 0 500 "socket hang up" (by rfl) (by decide)
      (Or.inr (by rfl))⟩

/-! ## C6: order preservation under arbitrary completion order -/

lemma map_getD_range (l : List String) :
    (List.range l.length).map (fun i => l.getD i "") = l := by
  induction l with
  | nil => rfl
  | cons a t ih =>
    rw [List.length_cons, List.range_succ_eq_map, List.map_cons, List.map_map]
    have hc : ((fun i => (a :: t).getD i "") ∘ (· + 1)) = (fun i => t.getD i "") := by
      funext i
      exact List.getD_cons_succ
    rw [List.getD_cons_zero, hc, ih]

lemma lookup_settleLog (tasks : List String) (order : List Nat) (i : Nat) (h : i ∈ order) :
    (settleLog tasks order).lookup i = some (tasks.getD i "") := by
  induction order with
  | nil => cases h
  | cons j rest ih =>
    unfold settleLog
    rw [List.map_cons]
    by_cases hij : i = j
    · subst hij
      simp [List.lookup]
    · have hmem : i ∈ rest := by
        cases List.mem_cons.mp h with
        | inl he => exact absurd he hij
        | inr hm => exact hm
      have hbeq : (i == j) = false := by
        cases hb : i == j with
        | true => exact absurd (by simpa using hb) hij
        | false => rfl
      rw [List.lookup, hbeq]
      exact ih hmem

/-- C6.  Order preservation: the handler's composed document equals the
positional join of the per-locator rendered fragments, for every
completion order of the concurrent fetches — results are joined by
original index, not in completion order. -/
theorem c6_order_preservation (fetchText : String → TFetch) (st : CacheMap String)
    (now : Nat) (urls : List String) (order : List Nat)
    (hperm : order.Perm (List.range urls.length)) :
    composeHandlerDoc fetchText st now urls order
      = joinSep "\n\n" (handlerTasks fetchText st now urls) := by
  unfold composeHandlerDoc
  congr 1
  have hlen : (handlerTasks fetchText st now urls).length = urls.length := by
    simp [handlerTasks]
  unfold promiseAllGather
  have hmem : ∀ i ∈ List.range urls.length,
      ((settleLog (handlerTasks fetchText st now urls) order).lookup i).getD ""
        = (handlerTasks fetchText st now urls).getD i "" := by
    intro i hi
    rw [lookup_settleLog _ order i (hperm.mem_iff.mpr hi)]
    rfl
  rw [List.map_congr_left hmem, ← hlen]
  exact map_getD_range (handlerTasks fetchText st now urls)

/-- Witness for C6 at a concrete instance (the second locator settles
first and the first settles last). -/
theorem c6_order_preservation_witness :
    ([1, 2, 0] : List Nat).Perm
        (List.range (["https://a/x.md", "https://a/y.md", "https://a/z.md"] : List String).length) ∧
    composeHandlerDoc (fun u => TFetch.ok u) [] 0
        ["https://a/x.md", "https://a/y.md", "https://a/z.md"] [1, 2, 0]
      = joinSep "\n\n"
          (handlerTasks (fun u => TFetch.ok u) [] 0
            ["https://a/x.md", "https://a/y.md", "https://a/z.md"]) :=
  ⟨by decide,
    c6_order_preservation (fun u => TFetch.ok u) [] 0
      ["https://a/x.md", "https://a/y.md", "https://a/z.md"] [1, 2, 0] (by decide)⟩

/-! ## C7: stale-cache checks before surfaced fetch errors -/

/-- C7 counterexample: `fetchLinksList` surfaces its fetch-failure error
even though an earlier-written (expired) value for its cache key still
exists — no stale-cache lookup guards this path. -/
theorem c7_links_error_despite_stale :
    Cache.getExpired
        ([("llms.txt", ⟨["https://modelcontextprotocol.io/specification/2025-03-26/basic/x"],
            0⟩)] : CacheMap (List String)) "llms.txt"
      = some ["https://modelcontextprotocol.io/specification/2025-03-26/basic/x"] ∧
    fetchLinksList (fun _ => TFetch.httpError 503)
        [("llms.txt", ⟨["https://modelcontextprotocol.io/specification/2025-03-26/basic/x"],
          0⟩)] TTL
      = .error ⟨"InternalError", "Failed to fetch links list: HTTP error! Status: 503"⟩ :=
  ⟨by rfl, by rfl⟩

/-- C7 (amended).  Only the schema fetch paths guard surfaced errors
with a stale-cache check: a schema-path error implies no truthy stale
value existed; the links-list fetch surfaces its error on
miss-plus-failure (non-ok status or transport error) regardless of the
stale cache; and the per-fragment markdown fetch surfaces no error at
all — on miss-plus-failure it returns the inline placeholder, and its
result depends on the cache only through the fresh `get` view, never
through stale entries. -/
theorem c7_stale_check_policy :
    (∀ (fetchJson : String → JFetch) (st : CacheMap Json) (now : Nat) (version : String)
        (e : McpErr),
      getSchemaForVersion fetchJson st now version = .error e →
      truthyOpt (Cache.getExpired st (getSchemaUrlForVersion version)) = false) ∧
    (∀ (fetchJson : String → JFetch) (st : CacheMap Json) (now : Nat) (e : McpErr),
      getSchema fetchJson st now = .error e →
      truthyOpt (Cache.getExpired st SCHEMA_URL) = false) ∧
    (∀ (fetchText : String → TFetch) (st : CacheMap (List String)) (now : Nat) (s : Nat),
      Cache.get st "llms.txt" now = none →
      fetchText "https://modelcontextprotocol.io/llms.txt" = .httpError s →
      fetchLinksList fetchText st now
        = .error ⟨"InternalError",
            "Failed to fetch links list: HTTP error! Status: " ++ toString s⟩) ∧
    (∀ (fetchText : String → TFetch) (st : CacheMap (List String)) (now : Nat)
        (msg : String),
      Cache.get st "llms.txt" now = none →
      fetchText "https://modelcontextprotocol.io/llms.txt" = .transportError msg →
      fetchLinksList fetchText st now
        = .error ⟨"InternalError", "Failed to fetch links list: " ++ msg⟩) ∧
    (∀ (fetchText : String → TFetch) (st : CacheMap String) (now : Nat) (url : String)
        (s : Nat),
      (Cache.get st url now).getD "" = "" →
      fetchText url = .httpError s →
      (fetchMarkdownContent fetchText st now url).1
        = mdPlaceholder url ("HTTP error! Status: " ++ toString s)) ∧
    (∀ (fetchText : String → TFetch) (st : CacheMap String) (now : Nat)
        (url msg : String),
      (Cache.get st url now).getD "" = "" →
      fetchText url = .transportError msg →
      (fetchMarkdownContent fetchText st now url).1 = mdPlaceholder url msg) ∧
    (∀ (fetchText : String → TFetch) (st st' : CacheMap String) (now : Nat)
        (url : String),
      (∀ k, Cache.get st k now = Cache.get st' k now) →
      (fetchMarkdownContent fetchText st now url).1
        = (fetchMarkdownContent fetchText st' now url).1) := by
  refine ⟨?_, ?_, ?_, ?_, ?_, ?_, ?_⟩
  · intro fetchJson st now version e h
    unfold getSchemaForVersion at h
    dsimp only at h
    split at h
    · exact absurd h (by simp)
    · split at h
      · exact absurd h (by simp)
      all_goals
        unfold schemaForVersionFallback at h
        dsimp only at h
        split at h
        · exact absurd h (by simp)
        · rename_i hcond
          exact Bool.not_eq_true _ ▸ (by simpa using hcond)
  · intro fetchJson st now e h
    unfold getSchema at h
    dsimp only at h
    split at h
    · exact absurd h (by simp)
    · split at h
      · exact absurd h (by simp)
      all_goals
        unfold getSchemaFallback at h
        dsimp only at h
        split at h
        · exact absurd h (by simp)
        · rename_i hcond
          exact Bool.not_eq_true _ ▸ (by simpa using hcond)
  · intro fetchText st now s h1 h2
    simp [fetchLinksList, h1, h2]
  · intro fetchText st now msg h1 h2
    simp [fetchLinksList, h1, h2]
  · intro fetchText st now url s h1 h2
    simp [fetchMarkdownContent, h1, h2]
  · intro fetchText st now url msg h1 h2
    simp [fetchMarkdownContent, h1, h2]
  · intro fetchText st st' now url h
    unfold fetchMarkdownContent
    rw [h url]
    dsimp only
    split
    · rfl
    · cases fetchText url <;> rfl

/-- Witness for C7 at a concrete instance. -/
theorem c7_stale_check_policy_witness :
    (Cache.get ([] : CacheMap (List String)) "llms.txt" 0 = none ∧
      (fun _ : String => TFetch.httpError 503) "https://modelcontextprotocol.io/llms.txt"
        = .httpError 503) ∧
    fetchLinksList (fun _ => TFetch.httpError 503) [] 0
      = .error ⟨"InternalError",
          "Failed to fetch links list: HTTP error! Status: " ++ toString 503⟩ :=
  ⟨⟨by rfl, by rfl⟩,
    c7_stale_check_policy.2.2.1 (fun _ => TFetch.httpError 503) [] 0 503 (by rfl) (by rfl)⟩

/-! ## C9: the per-section substring filters are not disjoint -/

lemma filterUrlsBySection_literal (rt : String → String → Bool) (l : List String)
    (sect version : String) (h1 : startsWithL "^".data sect.data = false)
    (h2 : (sect == "github.com/modelcontextprotocol/") = false)
    (h3 : (sect == "/docs/") = false) :
    filterUrlsBySection rt l sect version
      = (validLinksFilter l version).filter (fun url => containsSub sect url) := by
  unfold filterUrlsBySection
  simp [h1, h2, h3]

lemma containsSub_basic_of_basicUtilities (url : String)
    (h : containsSub "/basic/utilities/" url = true) : containsSub "/basic/" url = true := by
  unfold containsSub at h ⊢
  have he : "/basic/utilities/".data = "/basic/".data ++ "utilities/".data := by decide
  rw [he] at h
  exact containsL_pat_append _ _ _ h

lemma containsSub_server_of_serverUtilities (url : String)
    (h : containsSub "/server/utilities/" url = true) : containsSub "/server/" url = true := by
  unfold containsSub at h ⊢
  have he : "/server/utilities/".data = "/server/".data ++ "utilities/".data := by decide
  rw [he] at h
  exact containsL_pat_append _ _ _ h

lemma mem_basic_of_mem_basicUtilities (rt : String → String → Bool) (l : List String)
    (version url : String) (h : url ∈ filterUrlsBySection rt l "/basic/utilities/" version) :
    url ∈ filterUrlsBySection rt l "/basic/" version := by
  rw [filterUrlsBySection_literal rt l "/basic/utilities/" version
    (by decide) (by decide) (by decide)] at h
  rw [filterUrlsBySection_literal rt l "/basic/" version (by decide) (by decide) (by decide)]
  obtain ⟨hm, hc⟩ := List.mem_filter.mp h
  exact List.mem_filter.mpr ⟨hm, containsSub_basic_of_basicUtilities url hc⟩

lemma mem_server_of_mem_serverUtilities (rt : String → String → Bool) (l : List String)
    (version url : String) (h : url ∈ filterUrlsBySection rt l "/server/utilities/" version) :
    url ∈ filterUrlsBySection rt l "/server/" version := by
  rw [filterUrlsBySection_literal rt l "/server/utilities/" version
    (by decide) (by decide) (by decide)] at h
  rw [filterUrlsBySection_literal rt l "/server/" version (by decide) (by decide) (by decide)]
  obtain ⟨hm, hc⟩ := List.mem_filter.mp h
  exact List.mem_filter.mpr ⟨hm, containsSub_server_of_serverUtilities url hc⟩

/-- C9.  The per-section substring filters of complete composition are
not disjoint: a locator matching `/basic/utilities/` also matches the
`/basic/` filter (likewise `/server/utilities/` and `/server/`), so a
fragment surviving version scoping in the utilities section occurs at
least twice in the ordered list of locators that complete composition
fetches and includes. -/
theorem c9_utilities_sections_overlap :
    (∀ (rt : String → String → Bool) (specLinks : List String) (version url : String),
      url ∈ filterUrlsBySection rt specLinks "/basic/utilities/" version →
      url ∈ filterUrlsBySection rt specLinks "/basic/" version) ∧
    (∀ (rt : String → String → Bool) (specLinks : List String) (version url : String),
      url ∈ filterUrlsBySection rt specLinks "/server/utilities/" version →
      url ∈ filterUrlsBySection rt specLinks "/server/" version) ∧
    (∀ (rt : String → String → Bool) (specLinks : List String) (url : String),
      url ∈ filterUrlsBySection rt specLinks "/basic/utilities/" VERSION →
      2 ≤ (combinedFetchPlan rt specLinks).count url) ∧
    (∀ (rt : String → String → Bool) (specLinks : List String) (url : String),
      url ∈ filterUrlsBySection rt specLinks "/server/utilities/" VERSION →
      2 ≤ (combinedFetchPlan rt specLinks).count url) := by
  refine ⟨mem_basic_of_mem_basicUtilities, mem_server_of_mem_serverUtilities, ?_, ?_⟩
  · intro rt specLinks url h
    have hb := mem_basic_of_mem_basicUtilities rt specLinks VERSION url h
    unfold combinedFetchPlan completeSections
    simp only [List.map_cons, List.map_nil, List.flatten_cons, List.flatten_nil,
      List.append_nil, List.count_append,
      show ("/" ++ "basic" ++ "/" : String) = "/basic/" from rfl,
      show ("/" ++ "basic/utilities" ++ "/" : String) = "/basic/utilities/" from rfl]
    have h1 : 0 < (filterUrlsBySection rt specLinks "/basic/" VERSION).count url :=
      List.count_pos_iff.mpr hb
    have h2 : 0 < (filterUrlsBySection rt specLinks "/basic/utilities/" VERSION).count url :=
      List.count_pos_iff.mpr h
    omega
  · intro rt specLinks url h
    have hb := mem_server_of_mem_serverUtilities rt specLinks VERSION url h
    unfold combinedFetchPlan completeSections
    simp only [List.map_cons, List.map_nil, List.flatten_cons, List.flatten_nil,
      List.append_nil, List.count_append,
      show ("/" ++ "server" ++ "/" : String) = "/server/" from rfl,
      show ("/" ++ "server/utilities" ++ "/" : String) = "/server/utilities/" from rfl]
    have h1 : 0 < (filterUrlsBySection rt specLinks "/server/" VERSION).count url :=
      List.count_pos_iff.mpr hb
    have h2 : 0 < (filterUrlsBySection rt specLinks "/server/utilities/" VERSION).count url :=
      List.count_pos_iff.mpr h
    omega

/-- Witness for C9 at a concrete instance. -/
theorem c9_utilities_sections_overlap_witness :
    ("https://modelcontextprotocol.io/specification/2025-03-26/basic/utilities/ping"
        ∈ filterUrlsBySection (fun _ _ => false)
          ["https://modelcontextprotocol.io/specification/2025-03-26/basic/utilities/ping"]
          "/basic/utilities/" VERSION) ∧
    2 ≤ (combinedFetchPlan (fun _ _ => false)
          ["https://modelcontextprotocol.io/specification/2025-03-26/basic/utilities/ping"]).count
        "https://modelcontextprotocol.io/specification/2025-03-26/basic/utilities/ping" :=
  ⟨by decide,
    c9_utilities_sections_overlap.2.2.1 (fun _ _ => false)
      ["https://modelcontextprotocol.io/specification/2025-03-26/basic/utilities/ping"]
      "https://modelcontextprotocol.io/specification/2025-03-26/basic/utilities/ping"
      (by decide)⟩

/-! ## C10: the combined prompt document never contains the schema -/

/-- C10.  The combined complete document is independent of the
schema-fetch collaborator (it performs no schema fetch) and always
begins with the fixed heading; only the resource-read complete
composition produces the schema block, and there it is always the first
content item. -/
theorem c10_combined_doc_has_no_schema :
    (∀ (fetchJson fetchJson' : String → JFetch) (fetchText : String → TFetch)
        (rt : String → String → Bool) (textC : CacheMap String)
        (linksC : CacheMap (List String)) (now : Nat),
      getCombinedCompleteResourceDoc fetchJson fetchText rt textC linksC now
        = getCombinedCompleteResourceDoc fetchJson' fetchText rt textC linksC now) ∧
    (∀ (fetchJson : String → JFetch) (fetchText : String → TFetch)
        (rt : String → String → Bool) (textC : CacheMap String)
        (linksC : CacheMap (List String)) (now : Nat) (doc : String)
        (rest : CacheMap String × CacheMap (List String)),
      getCombinedCompleteResourceDoc fetchJson fetchText rt textC linksC now
          = .ok (doc, rest) →
      startsWithL "# Model Context Protocol Documentation".data doc.data = true) ∧
    (∀ (fetchJson : String → JFetch) (fetchText : String → TFetch)
        (rt : String → String → Bool) (jsonC : CacheMap Json) (textC : CacheMap String)
        (linksC : CacheMap (List String)) (now : Nat) (baseUri : String)
        (out : List ContentItem ×
          CacheMap Json × CacheMap String × CacheMap (List String)),
      getCompleteResourceDoc fetchJson fetchText rt jsonC textC linksC now baseUri
          = .ok out →
      ∃ schema jsonC', getSchema fetchJson jsonC now = .ok (schema, jsonC') ∧
        out.1.head?
          = some ⟨baseUri ++ "#schema", jsonStringify 0 schema, "application/json"⟩) := by
  refine ⟨?_, ?_, ?_⟩
  · intro fetchJson fetchJson' fetchText rt textC linksC now
    rfl
  · intro fetchJson fetchText rt textC linksC now doc rest h
    unfold getCombinedCompleteResourceDoc at h
    cases hl : fetchLinksList fetchText linksC now with
    | error e => rw [hl] at h; exact absurd h (by simp)
    | ok p =>
      obtain ⟨links, lc⟩ := p
      rw [hl] at h
      dsimp only at h
      rw [Except.ok.injEq] at h
      have h1 := congrArg Prod.fst h
      dsimp only at h1
      rw [← h1, String.data_append]
      exact startsWithL_append_self _ _
  · intro fetchJson fetchText rt jsonC textC linksC now baseUri out h
    unfold getCompleteResourceDoc at h
    cases hs : getSchema fetchJson jsonC now with
    | error e => rw [hs] at h; exact absurd h (by simp)
    | ok p =>
      obtain ⟨schema, jc'⟩ := p
      rw [hs] at h
      cases hl : fetchLinksList fetchText linksC now with
      | error e => rw [hl] at h; exact absurd h (by simp)
      | ok q =>
        obtain ⟨links, lc'⟩ := q
        rw [hl] at h
        dsimp only at h
        rw [Except.ok.injEq] at h
        refine ⟨schema, jc', rfl, ?_⟩
        rw [← h]
        rfl

/-- Witness for C10 at a concrete instance. -/
theorem c10_combined_doc_has_no_schema_witness :
    getCombinedCompleteResourceDoc (fun _ => JFetch.httpError 500) (fun _ => TFetch.ok "")
        (fun _ _ => false) [] [] 0
      = .ok ("# Model Context Protocol Documentation\n\n",
          ([], Cache.set [] "llms.txt" [] 0)) ∧
    startsWithL "# Model Context Protocol Documentation".data
        ("# Model Context Protocol Documentation\n\n" : String).data = true :=
  ⟨by rfl,
    c10_combined_doc_has_no_schema.2.1 (fun _ => JFetch.httpError 500)
      (fun _ => TFetch.ok "") (fun _ _ => false) [] [] 0
      "# Model Context Protocol Documentation\n\n" ([], Cache.set [] "llms.txt" [] 0)
      (by rfl)⟩

end McpAdvisor
